import Mathlib


/-!
Verification of the rich-text editor core (selection resolver, command engine,
history manager, sanitization pipeline, image-resize interaction) against its
natural-language specification.

The development shallowly embeds the TypeScript sources:

* `src/hooks/useHistoryStack.ts` — snapshot history with a 50ms debounce,
  a 100-entry cap, and undo/redo (section `History`).
* `src/hooks/useEditorCommands.ts` — the formatting command engine and the
  `sanitizeHTML` pipeline (sections `Sanitize` and `Commands`).
* `src/hooks/useEditorSelection.ts` — `getActiveFormats` ancestor walk and the
  full-block selection test (sections `Formats` and `Commands`).
* `src/components/editor/RichTextEditor.tsx` and
  `src/components/editor/ImageResizeWrapper.tsx` — the image-resize pointer
  math (section `Resize`).

Machine integers do not occur: all quantities are `Nat` (timestamps, offsets)
or `Rat` (pixel geometry).  DOM trees are embedded as the mutual inductive
`MNode`/`MList`; the browser's single-threaded event loop is embedded by
explicit state passing, one Lean function per event handler.
-/

/-! ## History — embedding of `src/hooks/useHistoryStack.ts`

The hook closes over mutable refs (`undoStack`, `redoStack`, `isUndoRedoing`,
`lastSaveTime`, `debounceTimeout`) and the editor DOM (`editorRef`); we package
all of them in `HistoryState`.  The snapshot type is a parameter `α`: in the
source a snapshot is the serialized markup string `editorRef.current.innerHTML`;
theorems about the history stack alone use `α := String`, while the command
engine below instantiates `α` with the document tree the string serializes.

`Date.now()` is passed explicitly as a `Nat` argument `now`.  JavaScript timer
callbacks never interrupt running code, so each handler is a plain state
transformer and a scheduled debounce callback is an ordinary later event
(`fireTimer`). -/

/-- Serialized cursor descriptor, from the `cursorPosition` field of
`HistoryEntry` in `useHistoryStack.ts`: two anchors, each a root-to-node
child-index path plus an intra-node offset. -/
structure CursorPosition where
  startOffset : Nat
  endOffset : Nat
  startPath : List Nat
  endPath : List Nat
deriving Repr, DecidableEq

/-- `HistoryEntry` from `useHistoryStack.ts`: a document snapshot plus an
optional cursor descriptor. -/
structure HistoryEntry (α : Type) where
  html : α
  cursorPosition : Option CursorPosition
deriving Repr, DecidableEq

/-- `MAX_HISTORY_SIZE` from `useHistoryStack.ts`. -/
def MAX_HISTORY_SIZE : Nat := 100

/-- The state closed over by `useHistoryStack`.  `content` is the current
document (`editorRef.current.innerHTML`), `cursor` the current window
selection as captured by `getCursorPosition()`.  The stacks are lists with the
most recent entry at the HEAD (the source keeps JS arrays with the most recent
entry last; `undoStack[undoStack.length - 1]` is our head).  `pendingTimer`
is the scheduled firing time of `debounceTimeout`, if one is pending. -/
structure HistoryState (α : Type) where
  content : α
  cursor : Option CursorPosition
  undoStack : List (HistoryEntry α)
  redoStack : List (HistoryEntry α)
  isUndoRedoing : Bool
  lastSaveTime : Nat
  pendingTimer : Option Nat
deriving Repr, DecidableEq

/-- A fresh editor state holding document `a`: empty stacks, no pending timer,
`lastSaveTime = 0` and `isUndoRedoing = false`, exactly as the refs are
initialized in `useHistoryStack`. -/
def initState {α : Type} (a : α) : HistoryState α :=
  { content := a, cursor := none, undoStack := [], redoStack := [],
    isUndoRedoing := false, lastSaveTime := 0, pendingTimer := none }

/-- `saveHistory` from `useHistoryStack.ts` (lines 81-112), invoked at wall
time `now`.  Re-entrancy guard; then the 50ms debounce: a call closer than
50ms to the last successful save only (re)schedules the trailing timer for
`now + 50` (`clearTimeout` plus `setTimeout(saveHistory, 50)`); otherwise the
current snapshot and cursor are pushed (JS `[...prev, entry]` capped by
`slice(-MAX_HISTORY_SIZE)`, i.e. keep the most recent 100) and the redo stack
is cleared.  Note the immediate-save branch does not cancel a pending
timer — neither does the source. -/
def saveHistory {α : Type} (now : Nat) (s : HistoryState α) : HistoryState α :=
  if s.isUndoRedoing then s
  else if now - s.lastSaveTime < 50 then
    { s with pendingTimer := some (now + 50) }
  else
    let entry : HistoryEntry α := { html := s.content, cursorPosition := s.cursor }
    let newStack := entry :: s.undoStack
    { s with
      lastSaveTime := now,
      undoStack := if newStack.length > MAX_HISTORY_SIZE
                   then newStack.take MAX_HISTORY_SIZE else newStack,
      redoStack := [] }

/-- The debounce callback scheduled by `saveHistory`: when the timeout fires
at its scheduled time `now`, the pending-timer slot empties and `saveHistory`
runs again. -/
def fireTimer {α : Type} (now : Nat) (s : HistoryState α) : HistoryState α :=
  saveHistory now { s with pendingTimer := none }

/-- `undo` from `useHistoryStack.ts` (lines 114-135): no-op on an empty undo
stack; otherwise the current snapshot+cursor is pushed onto the redo stack,
the top undo entry is popped, and the document content is replaced by its
snapshot.  The source sets `isUndoRedoing` for the duration of the restore and
resets it with a zero-delay timeout, which runs before any subsequent external
event; the post-event state therefore has the flag cleared.  Cursor
restoration re-resolves the stored anchor paths against the restored tree and
silently keeps the old selection on failure; no claim in this development
depends on the cursor, and we record the restored descriptor. -/
def undo {α : Type} (s : HistoryState α) : HistoryState α :=
  match s.undoStack with
  | [] => s
  | prev :: rest =>
    { s with
      undoStack := rest,
      redoStack := { html := s.content, cursorPosition := s.cursor } :: s.redoStack,
      content := prev.html,
      cursor := prev.cursorPosition,
      isUndoRedoing := false }

/-- `redo` from `useHistoryStack.ts` (lines 137-158), symmetric to `undo`. -/
def redo {α : Type} (s : HistoryState α) : HistoryState α :=
  match s.redoStack with
  | [] => s
  | next :: rest =>
    { s with
      redoStack := rest,
      undoStack := { html := s.content, cursorPosition := s.cursor } :: s.undoStack,
      content := next.html,
      cursor := next.cursorPosition,
      isUndoRedoing := false }

/-- A mutating command, as wired in `useEditorCommands.ts`: every command
body first calls `saveHistory()` and then mutates the document.  `time` is the
wall time `Date.now()` observes during the command; `mutate` is the document
mutation it performs. -/
structure Cmd (α : Type) where
  time : Nat
  mutate : α → α

/-- Run one command: snapshot request first, then the mutation — the ordering
guarantee of spec section 5. -/
def runCmd {α : Type} (s : HistoryState α) (c : Cmd α) : HistoryState α :=
  let s' := saveHistory c.time s
  { s' with content := c.mutate s'.content }

/-- Run a command sequence in order. -/
def runCmds {α : Type} (s : HistoryState α) (cmds : List (Cmd α)) : HistoryState α :=
  cmds.foldl runCmd s

/-- A sequence of 101 spaced commands (each save 50ms after the previous one,
so no debouncing occurs), each overwriting the document with `"X"`. -/
def cexCmds : List (Cmd String) :=
  (List.range 101).map (fun k => ⟨50 * (k + 1), fun _ => "X"⟩)

/-- Five mutating commands issued 10ms apart (each `saveHistory` call is less
than 50ms after the previous one), each appending `"a"` to the document. -/
def burstCmds : List (Cmd String) :=
  [⟨100, fun s => s ++ "a"⟩, ⟨110, fun s => s ++ "a"⟩, ⟨120, fun s => s ++ "a"⟩,
   ⟨130, fun s => s ++ "a"⟩, ⟨140, fun s => s ++ "a"⟩]

/-! ## Document trees

DOM trees are embedded as a mutual inductive (so that all functions over them
are structural and kernel-computable).  An element node carries its tag name
(uppercase, as DOM `tagName` reports it), its non-style attributes as a
name/value list, its parsed inline style declaration (`el.style`) as a
property/value list with unique keys — `style` is kept out of the attribute
list because the source manipulates it through `el.style`/`cssText` — and its
ordered children.  Text nodes are leaves. -/

mutual
inductive MNode where
  | text (s : String)
  | elem (tag : String) (attrs : List (String × String))
      (style : List (String × String)) (children : MList)
inductive MList where
  | nil
  | cons (hd : MNode) (tl : MList)
end

/-- Concatenation of sibling lists. -/
def MList.append : MList → MList → MList
  | .nil, l => l
  | .cons n tl, l => .cons n (tl.append l)

/-! ## Sanitize — embedding of `sanitizeHTML` from `useEditorCommands.ts`

The source parses the pasted markup with `DOMParser`, runs the recursive
`sanitize` over `doc.body` and returns `doc.body.innerHTML`.  We embed the
tree transformation: `sanitizeChildren` maps the children list of a node
exactly as the source's `sanitize(node)` rewrites `node.childNodes`.  The
source snapshots `Array.from(node.childNodes)` before the loop and each
iteration either edits `el` in place or replaces it by a fresh `p`/`span`
(recursing via `sanitize(el)`, `sanitize(p)`, `sanitize(span)` — always into
the CHILDREN of the kept or replacement node), so the rewrite is exactly a
per-child map. -/

/-- `ALLOWED_TAGS` from `useEditorCommands.ts` line 4.  Note `DIV` is a
member. -/
def ALLOWED_TAGS : List String :=
  ["P", "H1", "H2", "H3", "UL", "OL", "LI", "BLOCKQUOTE", "PRE", "A", "B",
   "STRONG", "I", "EM", "U", "S", "STRIKE", "SPAN", "BR", "IMG", "DIV"]

/-- `blockTags` from the disallowed-element branch of `sanitizeHTML`. -/
def blockTags : List String :=
  ["DIV", "SECTION", "ARTICLE", "HEADER", "FOOTER", "MAIN", "NAV", "ASIDE"]

/-- `allowedAttrs` from the allowed-element branch of `sanitizeHTML`. -/
def allowedAttrs : List String :=
  ["href", "src", "alt", "style", "class", "target", "rel", "data-editor-image"]

/-- `allowedStyles` from `sanitizeHTML`. -/
def allowedStyles : List String :=
  ["color", "background-color", "background",
   "font-size", "font-family", "font-weight", "font-style",
   "text-decoration", "text-decoration-line", "text-decoration-color",
   "text-decoration-style",
   "text-align", "text-indent", "text-transform",
   "line-height", "letter-spacing", "word-spacing",
   "margin", "margin-top", "margin-right", "margin-bottom", "margin-left",
   "padding", "padding-top", "padding-right", "padding-bottom", "padding-left",
   "border", "border-radius",
   "width", "height", "max-width", "max-height",
   "display", "vertical-align"]

/-- The style re-serialization of the allowed-element branch: iterate over
`allowedStyles`, keep each property the declaration defines, and rebuild the
declaration in that fixed order (`styleObj` insertion order in the source;
the source's extra `text-align` re-assignment writes the same value to the
already-present key and is a no-op).  A `CSSStyleDeclaration` has unique
property keys, so `List.lookup` is the source's `getPropertyValue`. -/
def styleFilter (st : List (String × String)) : List (String × String) :=
  allowedStyles.filterMap (fun p => (List.lookup p st).map (fun v => (p, v)))

/-- The recursive `sanitize` of `sanitizeHTML` (lines 354-417), as the rewrite
it performs on a node's children list:

* text (and other non-element) children pass through untouched;
* an element with a disallowed tag is replaced by a `p` (when the tag is in
  `blockTags`) or a `span` (otherwise) that carries no attributes but the
  ORIGINAL style declaration copied verbatim (`p.style.cssText =
  el.style.cssText`), with the original children, into which the function
  recurses — the copied style of the replacement itself is never filtered;
* an element with an allowed tag keeps only `allowedAttrs` attributes and,
  when its style declaration is nonempty, has it rebuilt by `styleFilter`;
  the function recurses into its children. -/
def sanitizeChildren : MList → MList
  | .nil => .nil
  | .cons (.text s) rest => .cons (.text s) (sanitizeChildren rest)
  | .cons (.elem t a st cs) rest =>
    if !(ALLOWED_TAGS.contains t) then
      if blockTags.contains t then
        .cons (.elem "P" [] st (sanitizeChildren cs)) (sanitizeChildren rest)
      else
        .cons (.elem "SPAN" [] st (sanitizeChildren cs)) (sanitizeChildren rest)
    else
      .cons (.elem t (a.filter (fun kv => allowedAttrs.contains kv.1))
          (if st.isEmpty then st else styleFilter st)
          (sanitizeChildren cs))
        (sanitizeChildren rest)

/-- Whitelist check: every element tag in the forest is in `ALLOWED_TAGS`. -/
def tagsOK : MList → Bool
  | .nil => true
  | .cons (.text _) rest => tagsOK rest
  | .cons (.elem t _ _ cs) rest => ALLOWED_TAGS.contains t && tagsOK cs && tagsOK rest

/-- Whitelist check: every attribute name in the forest is in `allowedAttrs`. -/
def attrsOK : MList → Bool
  | .nil => true
  | .cons (.text _) rest => attrsOK rest
  | .cons (.elem _ a _ cs) rest =>
    a.all (fun kv => allowedAttrs.contains kv.1) && attrsOK cs && attrsOK rest

/-- Whitelist check: every style property in the forest is in
`allowedStyles`. -/
def stylesOK : MList → Bool
  | .nil => true
  | .cons (.text _) rest => stylesOK rest
  | .cons (.elem _ _ st cs) rest =>
    st.all (fun kv => allowedStyles.contains kv.1) && stylesOK cs && stylesOK rest

/-- Check that every element's style declaration is already in the sanitizer's
canonical form, i.e. a fixed point of `styleFilter` (only allowed properties,
listed in `allowedStyles` order, no duplicates). -/
def canonicalStyles : MList → Bool
  | .nil => true
  | .cons (.text _) rest => canonicalStyles rest
  | .cons (.elem _ _ st cs) rest =>
    (st == styleFilter st) && canonicalStyles cs && canonicalStyles rest

/-- Tag of the first node of a forest, when it is an element (projection used
to separate concrete trees). -/
def headTag : MList → String
  | .cons (.elem t _ _ _) _ => t
  | _ => ""

/-- Style declaration of the first node of a forest, when it is an element. -/
def headStyle : MList → List (String × String)
  | .cons (.elem _ _ st _) _ => st
  | _ => []

/-- The pasted markup `<div style="color:red">Hi</div>` of spec scenario 4. -/
def divHi : MNode := .elem "DIV" [] [("color", "red")] (.cons (.text "Hi") .nil)

/-- The paragraph `<p style="color:red">Hi</p>` the spec claims scenario 4
produces. -/
def pHi : MNode := .elem "P" [] [("color", "red")] (.cons (.text "Hi") .nil)

/-- The markup `<section style="color:red">Hi</section>`: a recognized
block-level kind that genuinely is NOT in `ALLOWED_TAGS`. -/
def secHi : MNode := .elem "SECTION" [] [("color", "red")] (.cons (.text "Hi") .nil)

/-- The markup `<section style="position:absolute">x</section>`: a disallowed
block-level element carrying a style property outside `allowedStyles`. -/
def secPos : MNode :=
  .elem "SECTION" [] [("position", "absolute")] (.cons (.text "x") .nil)

/-! ## Formats — embedding of `getActiveFormats` from `useEditorSelection.ts`

`getActiveFormats` walks `node.parentNode` ancestors from the range's start
container up to (excluding) the editor root, reading each element's tag and a
fixed set of inline style properties.  We embed the walk over the list of
ancestor elements in visiting order — innermost first — with non-element
ancestors already skipped (the source ignores them via the
`nodeType === ELEMENT_NODE` test). -/

/-- `BLOCK_ELEMENTS` from `useEditorSelection.ts` line 18. -/
def BLOCK_ELEMENTS : List String := ["H1", "H2", "H3", "P", "LI", "BLOCKQUOTE", "PRE"]

/-- The data `getActiveFormats` reads off one ancestor element: the (uppercase
DOM) tag name, the anchor `href`, and the consulted inline style properties —
the empty string standing for an unset property, as in a
`CSSStyleDeclaration`. -/
structure AncestorElem where
  tag : String
  href : String := ""
  fontWeight : String := ""
  fontStyle : String := ""
  textDecoration : String := ""
  fontSize : String := ""
  fontFamily : String := ""
  color : String := ""
  backgroundColor : String := ""
deriving Repr, DecidableEq

/-- The accumulated formats record (`Record<string, boolean | string>` in the
source): boolean flags default to false, scalar attributes to absent. -/
structure Formats where
  bold : Bool := false
  italic : Bool := false
  underline : Bool := false
  strike : Bool := false
  link : Option String := none
  block : Option String := none
  fontSize : Option String := none
  fontFamily : Option String := none
  color : Option String := none
  backgroundColor : Option String := none
  unorderedList : Bool := false
  orderedList : Bool := false
deriving Repr, DecidableEq

/-- JS `String.prototype.includes`: substring containment. -/
def strIncludes (s pat : String) : Bool :=
  (List.range (s.length + 1)).any (fun i => ((s.drop i).take pat.length) == pat)

/-- JS `parseInt` on a style value, as used for `fontWeight`: the leading
digit run, `NaN` (no digits) mapping to `none`. -/
def jsParseInt (s : String) : Option Nat :=
  let ds := s.takeWhile Char.isDigit
  if ds.isEmpty then none else ds.toNat?

/-- One iteration of the first `getActiveFormats` walk loop (lines 140-178):
boolean flags are set (never cleared) when any ancestor asserts them; scalar
attributes are overwritten on each ancestor that defines them. -/
def formatsStep (f : Formats) (e : AncestorElem) : Formats :=
  let tagName := e.tag.toLower
  let f := if tagName == "b" || tagName == "strong" || e.fontWeight == "bold" ||
              (match jsParseInt e.fontWeight with
               | some n => decide (700 ≤ n)
               | none => false) then { f with bold := true } else f
  let f := if tagName == "i" || tagName == "em" || e.fontStyle == "italic" then
    { f with italic := true } else f
  let f := if tagName == "u" || strIncludes e.textDecoration "underline" then
    { f with underline := true } else f
  let f := if tagName == "s" || tagName == "strike" ||
      strIncludes e.textDecoration "line-through" then { f with strike := true } else f
  let f := if tagName == "a" then { f with link := some e.href } else f
  let f := if BLOCK_ELEMENTS.contains e.tag then { f with block := some tagName } else f
  let f := if e.fontSize != "" then { f with fontSize := some e.fontSize } else f
  let f := if e.fontFamily != "" then { f with fontFamily := some e.fontFamily } else f
  let f := if e.color != "" then { f with color := some e.color } else f
  let f := if e.backgroundColor != "" then
    { f with backgroundColor := some e.backgroundColor } else f
  f

/-- One iteration of the second walk loop (lines 181-189), which only sets the
list flags. -/
def listStep (f : Formats) (e : AncestorElem) : Formats :=
  let f := if e.tag == "UL" then { f with unorderedList := true } else f
  if e.tag == "OL" then { f with orderedList := true } else f

/-- `getActiveFormats` over the ancestor chain of the range's start container,
innermost ancestor first: the first loop folds `formatsStep` from the empty
record, the second loop folds `listStep` over the same chain. -/
def getActiveFormats (chain : List AncestorElem) : Formats :=
  chain.foldl listStep (chain.foldl formatsStep {})

/-! ## Resize — embedding of the image-resize pointer math

Two implementations exist in the repository.  `RichTextEditor.tsx` installs
`handleResizeMouseMove` on `document` during a drag started on any of its four
corner handles; this is the handler the editor actually runs.
`ImageResizeWrapper.tsx` contains a corner-aware `handleMouseMove`, but that
component is only re-exported from `components/editor/index.ts` and is never
used by `RichTextEditor`.  Pixel quantities are embedded as `Rat`: every
operation involved (addition, subtraction, division, `Math.min`/`Math.max`)
is exact at the claim's values in both binary doubles and `Rat`. -/

/-- `handleResizeMouseMove` from `RichTextEditor.tsx` (lines 294-322), as the
map from gesture-start data (width, aspect ratio `width/height`) and the
pointer's horizontal delta to the new width/height written to the image.  The
corner the drag started on is NOT consulted: `resizeStartData` does not record
it, so the delta is always added.  Width is clamped by
`Math.max(50, Math.min(800, w))`; height is re-derived from the clamped
width. -/
def handleResizeMouseMove (startWidth aspect deltaX : ℚ) : ℚ × ℚ :=
  let newWidth := startWidth + deltaX
  let newWidth := max 50 (min 800 newWidth)
  (newWidth, newWidth / aspect)

/-- `handleMouseMove` from `ImageResizeWrapper.tsx` (lines 72-101): corners
whose name includes `right` add the horizontal delta, corners whose name
includes `left` subtract it; the width is clamped (`max 50` then `min 800`)
and the height re-derived from the final width and the aspect ratio (the
intermediate `max(50, newHeight)` is overwritten). -/
def handleMouseMoveIRW (corner : String) (startWidth startHeight aspect deltaX : ℚ) :
    ℚ × ℚ :=
  let newWidth := startWidth
  let newHeight := startHeight
  let newWidth := if strIncludes corner "right" then startWidth + deltaX
    else if strIncludes corner "left" then startWidth - deltaX
    else newWidth
  let newHeight := newWidth / aspect
  let newWidth := max 50 newWidth
  let newHeight := max 50 newHeight
  let newWidth := min 800 newWidth
  let newHeight := newWidth / aspect
  (newWidth, newHeight)

/-! ## Commands — embedding of the command engine

`useEditorCommands.ts` mutates the live DOM through `Range` objects.  We embed
the engine over the `MNode` document tree, with the editor root as the tree
root.  The embedded selection covers the class of ranges whose two anchors lie
in one text node (`MRange`: the root-to-node child-index path of that text
node plus the two character offsets) — the selection produced by dragging or
double-clicking inside a single run of text, and the class all concrete
inputs in this development use.  `Range.extractContents`, `deleteContents`
and `insertNode` are embedded for that class exactly as the DOM specification
prescribes: deletion removes the characters between the offsets from the text
node's data, and insertion at offset `k` splits the text node at `k` (no
split at the ends; the emptied original node stays when everything was
removed). -/

/-- A DOM `Range` with both anchors in one text node. -/
structure MRange where
  path : List Nat
  startOffset : Nat
  endOffset : Nat
deriving Repr, DecidableEq

/-- The `EditorSelection` record `getSelection()` returns, restricted to the
fields the commands consult: the cloned range (or `null`) and the window
selection's collapsed flag. -/
structure EditorSelection where
  range : Option MRange
  isCollapsed : Bool
deriving Repr, DecidableEq

def MList.get? : MList → Nat → Option MNode
  | .nil, _ => none
  | .cons n _, 0 => some n
  | .cons _ tl, k + 1 => tl.get? k

/-- Replace the node at index `i` by the given sibling list. -/
def MList.spliceAt : MList → Nat → MList → MList
  | .nil, _, _ => .nil
  | .cons _ tl, 0, repl => MList.append repl tl
  | .cons n tl, k + 1, repl => .cons n (tl.spliceAt k repl)

/-- Apply `f` to the node at index `i`. -/
def MList.modifyAt : MList → Nat → (MNode → MNode) → MList
  | .nil, _, _ => .nil
  | .cons n tl, 0, f => .cons (f n) tl
  | .cons n tl, k + 1, f => .cons n (tl.modifyAt k f)

/-- The node at a root-to-node child-index path. -/
def nodeAt : MNode → List Nat → Option MNode
  | n, [] => some n
  | .text _, _ :: _ => none
  | .elem _ _ _ cs, i :: p =>
    match cs.get? i with
    | some c => nodeAt c p
    | none => none

/-- Apply `f` to the node at `path`. -/
def modifyNodeAt : MNode → List Nat → (MNode → MNode) → MNode
  | n, [], f => f n
  | .text s, _ :: _, _ => .text s
  | .elem t a st cs, i :: p, f => .elem t a st (cs.modifyAt i (fun c => modifyNodeAt c p f))

/-- Replace the node at `path` by a list of replacement siblings (the path
must be nonempty: the editor root itself is never replaced). -/
def replaceNodeAt : MNode → List Nat → MList → MNode
  | n, [], _ => n
  | .text s, _ :: _, _ => .text s
  | .elem t a st cs, [i], repl => .elem t a st (cs.spliceAt i repl)
  | .elem t a st cs, i :: p, repl =>
    .elem t a st (cs.modifyAt i (fun c => replaceNodeAt c p repl))

/-! `textContent` of a node / a sibling list: concatenation of text leaves. -/
mutual
def textContentN : MNode → String
  | .text s => s
  | .elem _ _ _ cs => textContentL cs
def textContentL : MList → String
  | .nil => ""
  | .cons n tl => textContentN n ++ textContentL tl
end

/-! Whether a subtree contains an `IMG` element (`querySelector('img')`). -/
mutual
def hasImgN : MNode → Bool
  | .text _ => false
  | .elem t _ _ cs => t == "IMG" || hasImgL cs
def hasImgL : MList → Bool
  | .nil => false
  | .cons n tl => hasImgN n || hasImgL tl
end

/-- The string data of the text node at `path` (empty when the path does not
point at a text node). -/
def textAt (root : MNode) (path : List Nat) : String :=
  match nodeAt root path with
  | some (.text s) => s
  | _ => ""

/-- `range.toString()` for a single-text-node range: the characters between
the offsets. -/
def rangeText (root : MNode) (r : MRange) : String :=
  ((textAt root r.path).drop r.startOffset).take (r.endOffset - r.startOffset)

/-- `range.deleteContents()`: remove the characters between the offsets; the
range collapses to the start offset. -/
def deleteContentsAt (root : MNode) (r : MRange) : MNode :=
  modifyNodeAt root r.path (fun n =>
    match n with
    | .text s => .text (s.take r.startOffset ++ s.drop r.endOffset)
    | x => x)

/-- `range.insertNode` of a fragment at `(text node at path, offset)`: the DOM
splits the text node at the offset (inserting before the node at offset 0 and
after it at the node's length) and splices the fragment's nodes in. -/
def insertListAt (root : MNode) (path : List Nat) (off : Nat) (nodes : MList) : MNode :=
  let s := textAt root path
  let pre := s.take off
  let post := s.drop off
  replaceNodeAt root path
    (if off == 0 then MList.append nodes (.cons (.text post) .nil)
     else if post == "" then MList.append (.cons (.text pre) .nil) nodes
     else MList.append (.cons (.text pre) .nil)
       (MList.append nodes (.cons (.text post) .nil)))

/-- The deepest ancestor-or-self of the node at `path` (root excluded, as the
source walks `while current !== editorRef.current`) that is an element whose
tag satisfies `pred`; returns its path.  `acc` is the path of `n`. -/
def findDeepestElem (pred : String → Bool) : MNode → List Nat → List Nat →
    Option (List Nat)
  | n, acc, [] =>
    match n with
    | .elem t _ _ _ => if !acc.isEmpty && pred t then some acc else none
    | _ => none
  | n, acc, i :: p =>
    let deeper :=
      match n with
      | .elem _ _ _ cs =>
        match cs.get? i with
        | some c => findDeepestElem pred c (acc ++ [i]) p
        | none => none
      | _ => none
    match deeper with
    | some bp => some bp
    | none =>
      match n with
      | .elem t _ _ _ => if !acc.isEmpty && pred t then some acc else none
      | _ => none

/-- `findBlockParent` from `useEditorSelection.ts` (lines 73-87): the nearest
`BLOCK_ELEMENTS` ancestor-or-self, walking up from the node at `path` and
stopping before the editor root. -/
def findBlockParent (root : MNode) (path : List Nat) : Option (List Nat) :=
  findDeepestElem (fun t => BLOCK_ELEMENTS.contains t) root [] path

/-- JS `String.prototype.trim`: strip leading and trailing whitespace
(implemented over the character list so that it evaluates by kernel
reduction). -/
def jsTrim (s : String) : String :=
  String.mk (((s.data.dropWhile Char.isWhitespace).reverse.dropWhile
    Char.isWhitespace).reverse)

def MList.length : MList → Nat
  | .nil => 0
  | .cons _ tl => tl.length + 1

/-- `isFullBlockSelected` from `useEditorSelection.ts` (lines 89-105): exact
anchor match against `selectNodeContents(block)` (container identity plus
offsets 0 and child count — for our text-node ranges container identity is
path equality), with the trimmed-text-equality fallback. -/
def isFullBlockSelected (root : MNode) (r : MRange) (bp : List Nat) : Bool :=
  let blockChildCount :=
    match nodeAt root bp with
    | some (.elem _ _ _ cs) => cs.length
    | _ => 0
  let startMatch := r.path == bp && r.startOffset == 0
  let endMatch := r.path == bp && r.endOffset == blockChildCount
  if startMatch && endMatch then true
  else
    let blockText :=
      match nodeAt root bp with
      | some n => textContentN n
      | none => ""
    let selectedText := rangeText root r
    jsTrim blockText == jsTrim selectedText && selectedText.length > 0

/-- `SelectionTarget` from `useEditorSelection.ts`, reduced to the fields the
commands consult. -/
structure SelectionTarget where
  isFullBlock : Bool
  blockPath : Option (List Nat)
deriving Repr, DecidableEq

/-- `findFontTarget` from `useEditorSelection.ts` (lines 107-127). -/
def findFontTarget (root : MNode) (sel : EditorSelection) : SelectionTarget :=
  match sel.range with
  | none => { isFullBlock := false, blockPath := none }
  | some r =>
    if sel.isCollapsed then { isFullBlock := false, blockPath := none }
    else
      match findBlockParent root r.path with
      | none => { isFullBlock := false, blockPath := none }
      | some bp => { isFullBlock := isFullBlockSelected root r bp, blockPath := some bp }

/-! ### Span cleanup — `cleanupNestedSpans` from `useEditorCommands.ts`

The source takes a static snapshot `element.querySelectorAll('span')` of the
new span's descendants in document order and, for each snapshot entry whose
CURRENT parent is a `SPAN`, concatenates its `cssText` onto the parent's,
splices its children in its place and removes it; a second snapshot pass then
removes every descendant span with neither trimmed text nor an `img` in its
subtree.  Because children spliced out of a merged span are themselves later
snapshot entries (their parent has become the outer span), the loop flattens
whole span chains; the bottom-up recursion below performs the same flattening
— merged children contain no top-level spans, and `cssText` concatenation is
associative, so the accumulated style lists coincide with the document-order
loop. -/

/-- Absorb the direct `SPAN` children of a span: their style declarations are
concatenated onto the accumulated one (in document order) and their children
spliced in their place. -/
def absorbDirectSpans : List (String × String) → MList →
    (List (String × String)) × MList
  | st, .nil => (st, .nil)
  | st, .cons (.elem "SPAN" _ st2 cs2) rest =>
    let (st', rest') := absorbDirectSpans (st ++ st2) rest
    (st', MList.append cs2 rest')
  | st, .cons n rest =>
    let (st', rest') := absorbDirectSpans st rest
    (st', .cons n rest')

/-! First cleanup phase: merge every span that is the direct child of another
span into its parent, bottom-up (`mergeSpans`). -/
mutual
def mergeSpans : MNode → MNode
  | .text s => .text s
  | .elem t a st cs =>
    let cs' := mergeChildren cs
    if t == "SPAN" then
      let p := absorbDirectSpans st cs'
      .elem t a p.1 p.2
    else .elem t a st cs'
def mergeChildren : MList → MList
  | .nil => .nil
  | .cons n rest => .cons (mergeSpans n) (mergeChildren rest)
end

/-- Second cleanup phase: remove every span (at or below the given sibling
list) whose subtree has neither trimmed text content nor an image
(`!span.textContent?.trim() && !span.querySelector('img')`); outer spans are
judged before their descendants are removed, as in the document-order
snapshot. -/
def pruneEmptySpans : MList → MList
  | .nil => .nil
  | .cons (.elem "SPAN" a st cs) rest =>
    if jsTrim (textContentL cs) == "" && !hasImgL cs then pruneEmptySpans rest
    else .cons (.elem "SPAN" a st (pruneEmptySpans cs)) (pruneEmptySpans rest)
  | .cons (.elem t a st cs) rest =>
    .cons (.elem t a st (pruneEmptySpans cs)) (pruneEmptySpans rest)
  | .cons (.text s) rest => .cons (.text s) (pruneEmptySpans rest)

/-- `cleanupNestedSpans(element)` (lines 53-77): both phases over the
element's subtree; the element itself is neither merged into its own parent
nor pruned (`querySelectorAll` only returns descendants). -/
def cleanupNestedSpans (element : MNode) : MNode :=
  match mergeSpans element with
  | .elem t a st cs => .elem t a st (pruneEmptySpans cs)
  | n => n

/-- No styled-span node anywhere in the forest is the direct child of another
styled-span node (document-tree invariant 3 of the spec). -/
def MList.hasDirectSpan : MList → Bool
  | .nil => false
  | .cons (.elem "SPAN" _ _ _) _ => true
  | .cons _ rest => rest.hasDirectSpan

mutual
def noNestedSpansN : MNode → Bool
  | .text _ => true
  | .elem t _ _ cs =>
    (!(t == "SPAN") || !cs.hasDirectSpan) && noNestedSpansL cs
def noNestedSpansL : MList → Bool
  | .nil => true
  | .cons n rest => noNestedSpansN n && noNestedSpansL rest
end

/-! ### The command functions

Each command takes the wall time `now` (for `saveHistory`), the
`EditorSelection` the selection resolver produced, and the editor state; the
document tree is the `content` of a `HistoryState MNode` (the tree stands for
the markup string `editorRef.current.innerHTML` the history stack stores). -/

/-- Element style lookups `getActiveFormats` performs, with the JS
`CSSStyleDeclaration` property names the command engine writes
(`fontSize`, `fontFamily`, `color`, `backgroundColor`, ...). -/
def toAncestor (t : String) (a st : List (String × String)) : AncestorElem :=
  { tag := t,
    href := (a.lookup "href").getD "",
    fontWeight := (st.lookup "fontWeight").getD "",
    fontStyle := (st.lookup "fontStyle").getD "",
    textDecoration := (st.lookup "textDecoration").getD "",
    fontSize := (st.lookup "fontSize").getD "",
    fontFamily := (st.lookup "fontFamily").getD "",
    color := (st.lookup "color").getD "",
    backgroundColor := (st.lookup "backgroundColor").getD "" }

/-- The element ancestors of the node at `path` (the node itself included
when it is an element), top-down along the path, root excluded. -/
def descendAlong : MNode → List Nat → List AncestorElem
  | _, [] => []
  | .text _, _ :: _ => []
  | .elem _ _ _ cs, i :: p =>
    match cs.get? i with
    | none => []
    | some c =>
      (match c with
       | .elem t a st _ => [toAncestor t a st]
       | .text _ => []) ++ descendAlong c p

/-- The ancestor chain `getActiveFormats` walks: innermost first. -/
def ancestorChain (root : MNode) (path : List Nat) : List AncestorElem :=
  (descendAlong root path).reverse

/-- `CSSStyleDeclaration` property assignment `el.style[key] = value`:
overwrite the property if present, else append it. -/
def setStyleProp (st : List (String × String)) (k v : String) :
    List (String × String) :=
  if (st.lookup k).isSome then
    st.map (fun kv => if kv.1 == k then (k, v) else kv)
  else st ++ [(k, v)]

/-- The `Object.entries(style).forEach` loops of `wrapSelectionWithSpan`:
assign each truthy (nonempty) entry onto the element's style. -/
def applyStyleEntries (style : List (String × String)) (n : MNode) : MNode :=
  match n with
  | .elem t a st0 cs =>
    .elem t a (style.foldl (fun acc kv =>
      if kv.2 != "" then setStyleProp acc kv.1 kv.2 else acc) st0) cs
  | x => x

/-- `wrapSelectionWithSpan` from `useEditorCommands.ts` (lines 19-51): no-op
without a range or on a collapsed selection; otherwise snapshot, then either
merge the style straight onto the enclosing block (full-block selection) or
extract the selected contents into a new styled span, insert it at the
selection point and run `cleanupNestedSpans` on it. -/
def wrapSelectionWithSpan (style : List (String × String)) (now : Nat)
    (sel : EditorSelection) (st : HistoryState MNode) : HistoryState MNode :=
  match sel.range with
  | none => st
  | some r =>
    if sel.isCollapsed then st
    else
      let st1 := saveHistory now st
      let root := st1.content
      let target := findFontTarget root sel
      match target.blockPath, target.isFullBlock with
      | some bp, true =>
        { st1 with content := modifyNodeAt root bp (applyStyleEntries style) }
      | _, _ =>
        let mid := rangeText root r
        let span := MNode.elem "SPAN" [] (style.filter (fun kv => kv.2 != ""))
          (.cons (.text mid) .nil)
        let span := cleanupNestedSpans span
        let root2 := insertListAt (deleteContentsAt root r) r.path r.startOffset
          (MList.cons span MList.nil)
        { st1 with content := root2 }

/-- `setFontSize` (line 294). -/
def setFontSize (size : String) (now : Nat) (sel : EditorSelection)
    (st : HistoryState MNode) : HistoryState MNode :=
  wrapSelectionWithSpan [("fontSize", size)] now sel st

/-- `setFontFamily` (line 298). -/
def setFontFamily (family : String) (now : Nat) (sel : EditorSelection)
    (st : HistoryState MNode) : HistoryState MNode :=
  wrapSelectionWithSpan [("fontFamily", family)] now sel st

/-- `setTextColor` (line 302). -/
def setTextColor (color : String) (now : Nat) (sel : EditorSelection)
    (st : HistoryState MNode) : HistoryState MNode :=
  wrapSelectionWithSpan [("color", color)] now sel st

/-- `setBackgroundColor` (line 306). -/
def setBackgroundColor (color : String) (now : Nat) (sel : EditorSelection)
    (st : HistoryState MNode) : HistoryState MNode :=
  wrapSelectionWithSpan [("backgroundColor", color)] now sel st

/-- The two equivalent tag forms accepted per inline style when unwrapping
(`toggleInlineStyle`, lines 109-114). -/
def inlineTagMatches (cmdTag elTag : String) : Bool :=
  (cmdTag == "B" && (elTag == "B" || elTag == "STRONG")) ||
  (cmdTag == "I" && (elTag == "I" || elTag == "EM")) ||
  (cmdTag == "U" && elTag == "U") ||
  (cmdTag == "S" && (elTag == "S" || elTag == "STRIKE"))

/-- Unwrap the element at `path`: splice its children in its place and
discard it. -/
def unwrapAt (root : MNode) (path : List Nat) : MNode :=
  match nodeAt root path with
  | some (.elem _ _ _ cs) => replaceNodeAt root path cs
  | _ => root

/-- `toggleInlineStyle` from `useEditorCommands.ts` (lines 79-133): no-op
without a range or on a collapsed selection; otherwise snapshot, compute
`isActive` from `getActiveFormats`, and either unwrap the nearest matching
ancestor (active) or wrap the extracted contents in a new element of the
target kind (inactive). -/
def toggleInlineStyle (tagName : String) (now : Nat) (sel : EditorSelection)
    (st : HistoryState MNode) : HistoryState MNode :=
  match sel.range with
  | none => st
  | some r =>
    if sel.isCollapsed then st
    else
      let st1 := saveHistory now st
      let root := st1.content
      let formats := getActiveFormats (ancestorChain root r.path)
      let isActive :=
        (tagName == "B" && formats.bold) ||
        (tagName == "I" && formats.italic) ||
        (tagName == "U" && formats.underline) ||
        (tagName == "S" && formats.strike)
      if isActive then
        match findDeepestElem (inlineTagMatches tagName) root [] r.path with
        | some ap => { st1 with content := unwrapAt root ap }
        | none => st1
      else
        let wrapper := MNode.elem tagName [] []
          (MList.cons (.text (rangeText root r)) MList.nil)
        let root2 := insertListAt (deleteContentsAt root r) r.path r.startOffset
          (MList.cons wrapper MList.nil)
        { st1 with content := root2 }

/-- `setBlockType` from `useEditorCommands.ts` (lines 135-176): no-op without
a range; otherwise snapshot, then either insert a fresh block holding a
line-break (no enclosing block) or replace the enclosing block by a new block
of the given kind carrying the same children and the same style declaration
(`newBlock.innerHTML = blockElement.innerHTML`;
`newBlock.style.cssText = blockElement.style.cssText`; other attributes are
not copied). -/
def setBlockType (tagName : String) (now : Nat) (sel : EditorSelection)
    (st : HistoryState MNode) : HistoryState MNode :=
  match sel.range with
  | none => st
  | some r =>
    let st1 := saveHistory now st
    let root := st1.content
    match findBlockParent root r.path with
    | none =>
      let newBlock := MNode.elem tagName [] []
        (MList.cons (.elem "BR" [] [] MList.nil) MList.nil)
      { st1 with content :=
          insertListAt root r.path r.startOffset (MList.cons newBlock MList.nil) }
    | some bp =>
      { st1 with content := modifyNodeAt root bp (fun n =>
          match n with
          | .elem _ _ stOld cs => .elem tagName [] stOld cs
          | x => x) }

/-- `Array.from(list.children)` of the same-kind branch of `toggleList`: the
ELEMENT children, each turned into a `p` carrying its children
(`p.innerHTML = item.innerHTML`; non-element children of the list are not in
`children` and are dropped with the list wrapper). -/
def listItemsToParagraphs : MList → MList
  | .nil => .nil
  | .cons (.elem _ _ _ ics) rest =>
    .cons (.elem "P" [] [] ics) (listItemsToParagraphs rest)
  | .cons (.text _) rest => listItemsToParagraphs rest

/-- `toggleList` from `useEditorCommands.ts` (lines 178-245): three-way
branch on the active list kind. -/
def toggleList (listType : String) (now : Nat) (sel : EditorSelection)
    (st : HistoryState MNode) : HistoryState MNode :=
  match sel.range with
  | none => st
  | some r =>
    let st1 := saveHistory now st
    let root := st1.content
    let formats := getActiveFormats (ancestorChain root r.path)
    let currentListType : Option String :=
      if formats.unorderedList then some "UL"
      else if formats.orderedList then some "OL" else none
    if currentListType == some listType then
      -- same kind active: every list item becomes a standalone paragraph
      match findBlockParent root r.path with
      | some lp =>
        match nodeAt root lp with
        | some (.elem "LI" _ _ _) =>
          let listPath := lp.dropLast
          match nodeAt root listPath with
          | some (.elem _ _ _ items) =>
            { st1 with content :=
                replaceNodeAt root listPath (listItemsToParagraphs items) }
          | _ => st1
        | _ => st1
      | none => st1
    else if currentListType.isSome then
      -- different kind active: replace the enclosing list node, same children
      match findDeepestElem (fun t => t == "UL" || t == "OL") root [] r.path with
      | some ulp =>
        { st1 with content := modifyNodeAt root ulp (fun n =>
            match n with
            | .elem _ _ _ cs => .elem listType [] [] cs
            | x => x) }
      | none => st1
    else
      -- none active: wrap the enclosing block (or the raw selected text) in a
      -- new list with a single item
      match findBlockParent root r.path with
      | some bp =>
        { st1 with content := modifyNodeAt root bp (fun n =>
            match n with
            | .elem _ _ _ cs =>
              .elem listType [] [] (MList.cons (.elem "LI" [] [] cs) MList.nil)
            | x => x) }
      | none =>
        let txt := rangeText root r
        let liContent : MList :=
          if txt == "" then MList.cons (.elem "BR" [] [] MList.nil) MList.nil
          else MList.cons (.text txt) MList.nil
        let list := MNode.elem listType [] []
          (MList.cons (.elem "LI" [] [] liContent) MList.nil)
        let root2 := insertListAt (deleteContentsAt root r) r.path r.startOffset
          (MList.cons list MList.nil)
        { st1 with content := root2 }

/-- `insertLink` from `useEditorCommands.ts` (lines 247-274): no-op without a
range; otherwise snapshot, then wrap the selected text (or, collapsed, the
literal url) in a new `a` node targeting the url (`target="_blank"`,
`rel="noopener noreferrer"`), deleting the selected contents first when the
selection spans. -/
def insertLink (url : String) (now : Nat) (sel : EditorSelection)
    (st : HistoryState MNode) : HistoryState MNode :=
  match sel.range with
  | none => st
  | some r =>
    let st1 := saveHistory now st
    let root := st1.content
    let txt := if sel.isCollapsed then url else rangeText root r
    let link := MNode.elem "A"
      [("href", url), ("target", "_blank"), ("rel", "noopener noreferrer")] []
      (MList.cons (.text txt) MList.nil)
    let root1 := if sel.isCollapsed then root else deleteContentsAt root r
    { st1 with content :=
        insertListAt root1 r.path r.startOffset (MList.cons link MList.nil) }

/-- `removeLink` from `useEditorCommands.ts` (lines 276-292): no-op without a
range; otherwise snapshot, then replace the nearest `a` ancestor by a plain
text node carrying its text content. -/
def removeLink (now : Nat) (sel : EditorSelection) (st : HistoryState MNode) :
    HistoryState MNode :=
  match sel.range with
  | none => st
  | some r =>
    let st1 := saveHistory now st
    let root := st1.content
    match findDeepestElem (fun t => t == "A") root [] r.path with
    | some ap =>
      { st1 with content := modifyNodeAt root ap (fun n => .text (textContentN n)) }
    | none => st1

/-- `insertImage` from `useEditorCommands.ts` (lines 310-335): no-op without
a range; otherwise snapshot, then insert a paragraph wrapping one image node
with the given source and alt text at the selection point. -/
def insertImage (src alt : String) (now : Nat) (sel : EditorSelection)
    (st : HistoryState MNode) : HistoryState MNode :=
  match sel.range with
  | none => st
  | some r =>
    let st1 := saveHistory now st
    let root := st1.content
    let img := MNode.elem "IMG"
      [("src", src), ("alt", alt), ("class", "max-w-full h-auto rounded-lg my-4"),
       ("data-editor-image", "true")] [] MList.nil
    let p := MNode.elem "P" [] [] (MList.cons img MList.nil)
    { st1 with content :=
        insertListAt root r.path r.startOffset (MList.cons p MList.nil) }

/-- `handlePaste` from `useEditorCommands.ts` (lines 423-456):
`e.preventDefault()`, then `saveHistory()` — BEFORE the selection is checked —
then read the two clipboard payloads, return if no range exists, delete the
selected contents, and insert either the sanitized markup fragment (markup
payload takes precedence) or a plain text node. -/
def handlePaste (pHtml : Option MList) (pText : Option String) (now : Nat)
    (sel : Option MRange) (st : HistoryState MNode) : HistoryState MNode :=
  let st1 := saveHistory now st
  match sel with
  | none => st1
  | some r =>
    let root := deleteContentsAt st1.content r
    match pHtml with
    | some htmlNodes =>
      { st1 with content :=
          insertListAt root r.path r.startOffset (sanitizeChildren htmlNodes) }
    | none =>
      match pText with
      | some txt =>
        let root2 := insertListAt root r.path r.startOffset
          (MList.cons (.text txt) MList.nil)
        { st1 with content := root2 }
      | none => { st1 with content := root }

/-! ### Claims C4, C9 and C10 -/

/-- The document `<div(editor)><p><span style="color:red">Hello</span></p></div>`:
a paragraph whose text already sits inside a styled span. -/
def spanDoc : MNode :=
  .elem "DIV" [] []
    (.cons (.elem "P" [] []
      (.cons (.elem "SPAN" [] [("color", "red")]
        (.cons (.text "Hello") .nil)) .nil)) .nil)

/-- The selection of the substring `ell` inside that span's text node
(offsets 1..4 of the text node at path `[0, 0, 0]`). -/
def spanSel : EditorSelection :=
  { range := some { path := [0, 0, 0], startOffset := 1, endOffset := 4 },
    isCollapsed := false }

/-- A selection with no active range (`window.getSelection()` empty). -/
def noRangeSel : EditorSelection := { range := none, isCollapsed := true }

/-- A collapsed selection: a caret inside the `Hello` text node. -/
def caretSel : EditorSelection :=
  { range := some { path := [0, 0, 0], startOffset := 2, endOffset := 2 },
    isCollapsed := true }

/-! ## Theorems -/

/-! ### History stack lemmas -/

theorem runCmds_nil {α : Type} (s : HistoryState α) : runCmds s [] = s := rfl

theorem runCmds_cons {α : Type} (s : HistoryState α) (c : Cmd α) (cmds : List (Cmd α)) :
    runCmds s (c :: cmds) = runCmds (runCmd s c) cmds := rfl

/-- A command issued within 50ms of the last save only mutates the document
and (re)schedules the trailing timer. -/
theorem runCmd_debounced {α : Type} (s : HistoryState α) (c : Cmd α)
    (hflag : s.isUndoRedoing = false) (hd : c.time - s.lastSaveTime < 50) :
    runCmd s c = { s with pendingTimer := some (c.time + 50),
                          content := c.mutate s.content } := by
  unfold runCmd saveHistory
  rw [hflag]
  simp only [Bool.false_eq_true, if_false, if_pos hd]

/-- A command issued at least 50ms after the last save pushes the pre-mutation
snapshot; below the 100-entry cap nothing is evicted. -/
theorem runCmd_saved {α : Type} (s : HistoryState α) (c : Cmd α)
    (hflag : s.isUndoRedoing = false) (hd : ¬ c.time - s.lastSaveTime < 50)
    (hcap : s.undoStack.length < MAX_HISTORY_SIZE) :
    runCmd s c = { s with
      lastSaveTime := c.time,
      undoStack := { html := s.content, cursorPosition := s.cursor } :: s.undoStack,
      redoStack := [],
      content := c.mutate s.content } := by
  unfold runCmd saveHistory
  rw [hflag]
  have hnocap : ¬ (({ html := s.content, cursorPosition := s.cursor } ::
      s.undoStack).length > MAX_HISTORY_SIZE) := by
    simp only [List.length_cons, Nat.not_lt]
    omega
  simp only [Bool.false_eq_true, if_false, if_neg hd, if_neg hnocap]

theorem undo_of_empty {α : Type} (s : HistoryState α) (h : s.undoStack = []) :
    undo s = s := by
  unfold undo
  rw [h]

theorem undo_iterate_content_of_empty {α : Type} (s : HistoryState α)
    (h : s.undoStack = []) (n : Nat) : (undo^[n] s).content = s.content := by
  induction n with
  | zero => rfl
  | succ m ih =>
    rw [Function.iterate_succ_apply, undo_of_empty s h]
    exact ih

/-- Popping an entire undo stack whose bottom entry snapshots `a` leaves the
document at `a`, for any undo budget at least the stack height (extra undos
are no-ops). -/
theorem undo_iterate_restores_bottom {α : Type} (e0 : HistoryEntry α) :
    ∀ (front : List (HistoryEntry α)) (s : HistoryState α) (n : Nat),
      s.undoStack = front ++ [e0] → front.length < n →
      (undo^[n] s).content = e0.html := by
  intro front
  induction front with
  | nil =>
    intro s n hstack hn
    obtain ⟨m, rfl⟩ : ∃ m, n = m + 1 := ⟨n - 1, by omega⟩
    rw [Function.iterate_succ_apply]
    have hu : undo s = { s with
        undoStack := [],
        redoStack := { html := s.content, cursorPosition := s.cursor } :: s.redoStack,
        content := e0.html,
        cursor := e0.cursorPosition,
        isUndoRedoing := false } := by
      unfold undo
      rw [hstack]
      rfl
    rw [hu]
    exact undo_iterate_content_of_empty _ rfl m
  | cons f front ih =>
    intro s n hstack hn
    obtain ⟨m, rfl⟩ : ∃ m, n = m + 1 := ⟨n - 1, by omega⟩
    rw [Function.iterate_succ_apply]
    have hu : undo s = { s with
        undoStack := front ++ [e0],
        redoStack := { html := s.content, cursorPosition := s.cursor } :: s.redoStack,
        content := f.html,
        cursor := f.cursorPosition,
        isUndoRedoing := false } := by
      unfold undo
      rw [hstack]
      rfl
    rw [hu]
    have hm : front.length < m := by
      have := hn
      simp only [List.length_cons] at this
      omega
    exact ih _ m rfl hm

/-- Running commands with the re-entrancy flag down only pushes onto the undo
stack: as long as the original height plus the number of commands stays within
the 100-entry cap, no eviction happens, so the new stack is the old one with
at most one pushed entry per command on top, and the flag stays down. -/
theorem runCmds_stack_extends {α : Type} :
    ∀ (cmds : List (Cmd α)) (s : HistoryState α),
      s.isUndoRedoing = false →
      s.undoStack.length + cmds.length ≤ MAX_HISTORY_SIZE →
      (runCmds s cmds).isUndoRedoing = false ∧
      ∃ g : List (HistoryEntry α),
        (runCmds s cmds).undoStack = g ++ s.undoStack ∧ g.length ≤ cmds.length := by
  intro cmds
  induction cmds with
  | nil => intro s hflag _; exact ⟨hflag, [], rfl, Nat.le_refl 0⟩
  | cons c rest ih =>
    intro s hflag hlen
    rw [runCmds_cons]
    simp only [List.length_cons] at hlen
    by_cases hd : c.time - s.lastSaveTime < 50
    · -- debounced: the stack is unchanged by this command
      have h1 : (runCmd s c).undoStack = s.undoStack := by
        rw [runCmd_debounced s c hflag hd]
      have h2 : (runCmd s c).isUndoRedoing = false := by
        rw [runCmd_debounced s c hflag hd]
        exact hflag
      obtain ⟨hf, g, hg, hgl⟩ := ih (runCmd s c) h2 (by rw [h1]; omega)
      exact ⟨hf, g, by rw [hg, h1], Nat.le_trans hgl (Nat.le_succ _)⟩
    · -- a real save: one entry is pushed, and the cap is not hit
      have h1 : (runCmd s c).undoStack =
          { html := s.content, cursorPosition := s.cursor } :: s.undoStack := by
        rw [runCmd_saved s c hflag hd (by omega)]
      have h2 : (runCmd s c).isUndoRedoing = false := by
        rw [runCmd_saved s c hflag hd (by omega)]
        exact hflag
      obtain ⟨hf, g, hg, hgl⟩ := ih (runCmd s c) h2
        (by rw [h1]; simp only [List.length_cons]; omega)
      refine ⟨hf, g ++ [{ html := s.content, cursorPosition := s.cursor }], ?_, ?_⟩
      · rw [hg, h1, List.append_assoc]
        rfl
      · simp only [List.length_append, List.length_singleton, List.length_cons,
          List.length_nil]
        omega

/-! ### Claims C1 and C2 -/

/-- Claim C1 (amended): the undo inverse law holds for command sequences of at
most 100 commands (the history capacity `MAX_HISTORY_SIZE`): starting from a
fresh editor holding snapshot `S0`, running any such command sequence — each
command invoking `saveHistory` before its mutation, at arbitrary wall times
(debounced or not) — and then invoking `undo` once per command restores the
document content to exactly `S0`.  The hypothesis `50 ≤ c.time` on the first
command reflects that `Date.now()` always exceeds the initial
`lastSaveTime = 0` by far more than the 50ms debounce window.  Beyond 100
commands the law fails, because the capacity cap evicts the oldest snapshot —
see the counterexample. -/
theorem undo_inverse_law (S0 : String) (cmds : List (Cmd String))
    (hfirst : ∀ c, cmds.head? = some c → 50 ≤ c.time)
    (hlen : cmds.length ≤ MAX_HISTORY_SIZE) :
    (undo^[cmds.length] (runCmds (initState S0) cmds)).content = S0 := by
  match cmds with
  | [] => rfl
  | c :: rest =>
    have ht : 50 ≤ c.time := hfirst c rfl
    have hd : ¬ c.time - (initState S0).lastSaveTime < 50 := by
      show ¬ c.time - 0 < 50
      omega
    have hstep := runCmd_saved (initState S0) c rfl hd (by simp [initState, MAX_HISTORY_SIZE])
    rw [runCmds_cons, hstep]
    simp only [List.length_cons] at hlen ⊢
    obtain ⟨hf, g, hg, hgl⟩ :=
      runCmds_stack_extends rest { initState S0 with
          lastSaveTime := c.time,
          undoStack := [{ html := S0, cursorPosition := none }],
          redoStack := [],
          content := c.mutate S0 } rfl
        (by simp only [List.length_singleton]; omega)
    exact undo_iterate_restores_bottom { html := S0, cursorPosition := none } g _ _
      (by simpa using hg) (by omega)

/-- Witness for C1: one append command at time 50, one undo, content back to
the initial snapshot. -/
theorem undo_inverse_law_witness :
    (∀ c : Cmd String,
        ([⟨50, fun s => s ++ "b"⟩] : List (Cmd String)).head? = some c → 50 ≤ c.time) ∧
    ([⟨50, fun s => s ++ "b"⟩] : List (Cmd String)).length ≤ MAX_HISTORY_SIZE ∧
    (undo^[([⟨50, fun s => s ++ "b"⟩] : List (Cmd String)).length]
        (runCmds (initState "a") [⟨50, fun s => s ++ "b"⟩])).content = "a" := by
  refine ⟨?_, by decide, ?_⟩
  · intro c hc
    simp only [List.head?_cons, Option.some.injEq] at hc
    rw [← hc]
  · exact undo_inverse_law "a" [⟨50, fun s => s ++ "b"⟩]
      (by intro c hc
          simp only [List.head?_cons, Option.some.injEq] at hc
          rw [← hc])
      (by decide)

set_option maxRecDepth 8000 in
/-- Counterexample for C1 as stated: after 101 commands from the empty
snapshot, the 100-entry cap has evicted the original snapshot, and 101 undos
leave the content at `"X"`, not at the initial `""`. -/
theorem undo_inverse_law_cex :
    (undo^[cexCmds.length] (runCmds (initState "") cexCmds)).content ≠ "" := by
  decide

/-- Claim C2 (code bug): a rapid burst of five mutating commands does NOT
produce exactly one history entry, and a single undo does NOT revert the
burst.  Starting from a fresh editor holding `"S"`, the burst at times
100..140ms schedules the trailing debounce timer for 190ms; when it fires,
`saveHistory` runs again and snapshots the document AT THAT MOMENT — the
post-burst content — so the burst leaves TWO entries (the immediate first
save of `"S"` plus the trailing save of `"Saaaaa"`), and one undo restores
the top entry `"Saaaaa"`, i.e. changes nothing.  This contradicts the spec's
ordering guarantee that a snapshot is always captured before the mutation it
protects. -/
theorem debounce_burst_two_entries :
    (runCmds (initState "S") burstCmds).pendingTimer = some 190 ∧
    (fireTimer 190 (runCmds (initState "S") burstCmds)).undoStack.length = 2 ∧
    (undo (fireTimer 190 (runCmds (initState "S") burstCmds))).content = "Saaaaa" ∧
    "Saaaaa" ≠ "S" := by
  decide

/-! ### Sanitizer lemmas -/

theorem filter_allowedAttrs_all (a : List (String × String)) :
    (a.filter (fun kv => allowedAttrs.contains kv.1)).all
      (fun kv => allowedAttrs.contains kv.1) = true := by
  rw [List.all_eq_true]
  intro kv hkv
  exact (List.mem_filter.mp hkv).2

theorem styleFilter_keys_allowed (st : List (String × String)) :
    (styleFilter st).all (fun kv => allowedStyles.contains kv.1) = true := by
  rw [List.all_eq_true]
  intro kv hkv
  unfold styleFilter at hkv
  obtain ⟨p, hp, hmap⟩ := List.mem_filterMap.mp hkv
  obtain ⟨v, _, hv⟩ := Option.map_eq_some'.mp hmap
  rw [← hv]
  exact List.contains_iff_exists_mem_beq.mpr ⟨p, hp, by simp⟩

theorem lookup_filterMap_lookup (st : List (String × String)) (p : String) :
    ∀ keys : List String,
      List.lookup p (keys.filterMap (fun q => (List.lookup q st).map (fun v => (q, v)))) =
        if p ∈ keys then List.lookup p st else none := by
  intro keys
  induction keys with
  | nil => rfl
  | cons q keys ih =>
    by_cases hpq : p = q
    · subst hpq
      cases hl : List.lookup p st with
      | none =>
        simp only [List.filterMap_cons, hl, Option.map_none', ih]
        by_cases hmem : p ∈ keys <;> simp [hmem, hl]
      | some v =>
        simp [List.filterMap_cons, hl, List.lookup_cons]
    · cases hl : List.lookup q st with
      | none =>
        simp only [List.filterMap_cons, hl, Option.map_none', ih]
        simp [List.mem_cons, hpq]
      | some v =>
        have hbeq : (p == q) = false := beq_false_of_ne hpq
        simp only [List.filterMap_cons, hl, Option.map_some', List.lookup_cons, hbeq, ih]
        simp [List.mem_cons, hpq]

theorem lookup_styleFilter (st : List (String × String)) (p : String) :
    List.lookup p (styleFilter st) =
      if p ∈ allowedStyles then List.lookup p st else none :=
  lookup_filterMap_lookup st p allowedStyles

theorem filterMap_congr_mem {α β : Type} (l : List α) (f g : α → Option β)
    (h : ∀ a ∈ l, f a = g a) : l.filterMap f = l.filterMap g := by
  induction l with
  | nil => rfl
  | cons x xs ih =>
    simp only [List.filterMap_cons, h x (List.mem_cons_self x xs)]
    rw [ih (fun a ha => h a (List.mem_cons_of_mem x ha))]

theorem styleFilter_idem (st : List (String × String)) :
    styleFilter (styleFilter st) = styleFilter st := by
  have h : ∀ p ∈ allowedStyles,
      (List.lookup p (styleFilter st)).map (fun v => (p, v)) =
      (List.lookup p st).map (fun v => (p, v)) := by
    intro p hp
    rw [lookup_styleFilter, if_pos hp]
  exact filterMap_congr_mem allowedStyles _ _ h

/-! ### Claims C3, C5 and C6 -/

/-- Counterexample for C3 as stated: sanitizing
`<section style="position:absolute">x</section>` replaces the section by a
paragraph whose copied style declaration still carries `position`, which is
NOT in `allowedStyles` — the style-whitelist postcondition fails. -/
theorem sanitize_whitelist_cex :
    stylesOK (sanitizeChildren (.cons secPos .nil)) = false := by
  decide

/-- Claim C3 (amended): `sanitizeChildren` is total by construction, and every
element of the returned forest has an allowed tag and only allowed
attributes.  The style whitelist, however, holds only conditionally: elements
whose kind is allowed get their declaration rebuilt from `allowedStyles`, but
a paragraph or span substituted for a disallowed element keeps the original
declaration verbatim, so the output styles are guaranteed to be whitelisted
only when the input styles already are. -/
theorem sanitize_whitelist (l : MList) :
    tagsOK (sanitizeChildren l) = true ∧ attrsOK (sanitizeChildren l) = true ∧
    (stylesOK l = true → stylesOK (sanitizeChildren l) = true) := by
  induction l using sanitizeChildren.induct with
  | case1 =>
    exact ⟨rfl, rfl, fun _ => rfl⟩
  | case2 s rest ih =>
    obtain ⟨h1, h2, h3⟩ := ih
    refine ⟨?_, ?_, ?_⟩
    · simpa [sanitizeChildren, tagsOK] using h1
    · simpa [sanitizeChildren, attrsOK] using h2
    · intro h
      simp only [sanitizeChildren, stylesOK] at h ⊢
      exact h3 h
  | case3 t a st cs rest hdis hblk ihcs ihrest =>
    obtain ⟨c1, c2, c3⟩ := ihcs
    obtain ⟨r1, r2, r3⟩ := ihrest
    simp only [sanitizeChildren, hdis, hblk, if_pos, if_neg, Bool.not_eq_true',
      tagsOK, attrsOK, stylesOK, Bool.and_eq_true, List.all_nil]
    refine ⟨⟨⟨by decide, c1⟩, r1⟩, ⟨⟨by decide, c2⟩, r2⟩, ?_⟩
    intro h
    obtain ⟨⟨hst, hcs⟩, hrest⟩ := h
    exact ⟨⟨hst, c3 hcs⟩, r3 hrest⟩
  | case4 t a st cs rest hdis hblk ihcs ihrest =>
    obtain ⟨c1, c2, c3⟩ := ihcs
    obtain ⟨r1, r2, r3⟩ := ihrest
    simp only [sanitizeChildren, hdis, hblk, if_pos, if_neg, Bool.not_eq_true',
      tagsOK, attrsOK, stylesOK, Bool.and_eq_true, List.all_nil]
    refine ⟨⟨⟨by decide, c1⟩, r1⟩, ⟨⟨by decide, c2⟩, r2⟩, ?_⟩
    intro h
    obtain ⟨⟨hst, hcs⟩, hrest⟩ := h
    exact ⟨⟨hst, c3 hcs⟩, r3 hrest⟩
  | case5 t a st cs rest hall ihcs ihrest =>
    obtain ⟨c1, c2, c3⟩ := ihcs
    obtain ⟨r1, r2, r3⟩ := ihrest
    have htag : ALLOWED_TAGS.contains t = true := by
      revert hall
      simp [Bool.not_eq_true']
    simp only [sanitizeChildren, hall, Bool.not_eq_true', if_neg, if_pos,
      tagsOK, attrsOK, stylesOK, Bool.and_eq_true]
    refine ⟨⟨⟨htag, c1⟩, r1⟩, ⟨⟨filter_allowedAttrs_all a, c2⟩, r2⟩, ?_⟩
    intro h
    obtain ⟨⟨hst, hcs⟩, hrest⟩ := h
    refine ⟨⟨?_, c3 hcs⟩, r3 hrest⟩
    by_cases he : st.isEmpty
    · rw [if_pos he]
      exact hst
    · rw [if_neg he]
      exact styleFilter_keys_allowed st

/-- Witness for C3: a concrete input with whitelisted styles on which the
amended postcondition evaluates. -/
theorem sanitize_whitelist_witness :
    stylesOK (MList.cons divHi MList.nil) = true ∧
    tagsOK (sanitizeChildren (MList.cons divHi MList.nil)) = true ∧
    attrsOK (sanitizeChildren (MList.cons divHi MList.nil)) = true ∧
    stylesOK (sanitizeChildren (MList.cons divHi MList.nil)) = true :=
  ⟨by decide, (sanitize_whitelist (MList.cons divHi MList.nil)).1,
    (sanitize_whitelist (MList.cons divHi MList.nil)).2.1,
    (sanitize_whitelist (MList.cons divHi MList.nil)).2.2 (by decide)⟩

/-- Counterexample for C5 as stated: the tree
`<section style="position:absolute">x</section>` is not a sanitization fixed
point after one pass — the first pass leaves the copied `position` property on
the replacement paragraph, the second pass strips it. -/
theorem sanitize_idem_cex :
    sanitizeChildren (sanitizeChildren (MList.cons secPos MList.nil)) ≠
      sanitizeChildren (MList.cons secPos MList.nil) := by
  intro h
  have h2 := congrArg headStyle h
  revert h2
  decide

/-- The style rewrite of the allowed-element branch is idempotent. -/
theorem styleFilter_step_idem (st : List (String × String)) :
    (if (if st.isEmpty = true then st else styleFilter st).isEmpty = true
     then (if st.isEmpty = true then st else styleFilter st)
     else styleFilter (if st.isEmpty = true then st else styleFilter st)) =
    (if st.isEmpty = true then st else styleFilter st) := by
  by_cases he : st.isEmpty
  · simp [he]
  · simp only [he, Bool.false_eq_true, if_false]
    by_cases hsf : (styleFilter st).isEmpty
    · rw [if_pos hsf]
    · rw [if_neg hsf, styleFilter_idem]

/-- Claim C5 (amended): sanitization is idempotent on every input whose
element style declarations are already in the sanitizer's canonical form
(`styleFilter` fixed points).  On general input the property fails — see the
counterexample — because a paragraph or span substituted for a disallowed
element keeps that element's style declaration verbatim, and a second pass
then rewrites it. -/
theorem sanitize_idem_canonical (l : MList) (h : canonicalStyles l = true) :
    sanitizeChildren (sanitizeChildren l) = sanitizeChildren l := by
  induction l using sanitizeChildren.induct with
  | case1 => rfl
  | case2 s rest ih =>
    simp only [canonicalStyles] at h
    simp only [sanitizeChildren, ih h]
  | case3 t a st cs rest hdis hblk ihcs ihrest =>
    simp only [canonicalStyles, Bool.and_eq_true] at h
    obtain ⟨⟨hst, hcs⟩, hrest⟩ := h
    have hsteq : styleFilter st = st := (eq_of_beq hst).symm
    have hp : (!(ALLOWED_TAGS.contains "P")) = false := by decide
    simp only [sanitizeChildren, hdis, hblk, if_pos, if_true, hp,
      Bool.false_eq_true, if_false, List.filter_nil, ihcs hcs, ihrest hrest]
    by_cases he : st.isEmpty
    · rw [if_pos he]
    · rw [if_neg he, hsteq]
  | case4 t a st cs rest hdis hblk ihcs ihrest =>
    simp only [canonicalStyles, Bool.and_eq_true] at h
    obtain ⟨⟨hst, hcs⟩, hrest⟩ := h
    have hsteq : styleFilter st = st := (eq_of_beq hst).symm
    have hp : (!(ALLOWED_TAGS.contains "SPAN")) = false := by decide
    simp only [sanitizeChildren, hdis, hblk, Bool.false_eq_true, if_false,
      if_pos, if_true, hp, List.filter_nil, ihcs hcs, ihrest hrest]
    by_cases he : st.isEmpty
    · rw [if_pos he]
    · rw [if_neg he, hsteq]
  | case5 t a st cs rest hall ihcs ihrest =>
    simp only [canonicalStyles, Bool.and_eq_true] at h
    obtain ⟨⟨hst, hcs⟩, hrest⟩ := h
    have htag : (!(ALLOWED_TAGS.contains t)) = false := by
      revert hall
      simp
    have hattr : (a.filter (fun kv => allowedAttrs.contains kv.1)).filter
        (fun kv => allowedAttrs.contains kv.1) =
        a.filter (fun kv => allowedAttrs.contains kv.1) :=
      List.filter_eq_self.mpr (fun x hx => (List.mem_filter.mp hx).2)
    simp only [sanitizeChildren, htag, Bool.false_eq_true, if_false,
      ihcs hcs, ihrest hrest, hattr]
    rw [styleFilter_step_idem]

/-- Witness for C5: the div tree of scenario 4 carries a canonical style
declaration, and sanitizing it twice equals sanitizing it once. -/
theorem sanitize_idem_witness :
    canonicalStyles (MList.cons divHi MList.nil) = true ∧
    sanitizeChildren (sanitizeChildren (MList.cons divHi MList.nil)) =
      sanitizeChildren (MList.cons divHi MList.nil) :=
  ⟨by decide, sanitize_idem_canonical (MList.cons divHi MList.nil) (by decide)⟩

/-- Counterexample for C6 as stated: sanitizing
`<div style="color:red">Hi</div>` does NOT yield
`<p style="color:red">Hi</p>` — `DIV` is a member of `ALLOWED_TAGS`, so the
div is kept, not replaced by a paragraph. -/
theorem sanitize_div_cex :
    sanitizeChildren (MList.cons divHi MList.nil) ≠ MList.cons pHi MList.nil := by
  intro h
  have h2 := congrArg headTag h
  revert h2
  decide

/-- Claim C6 (amended): `<div style="color:red">Hi</div>` passes through
sanitization unchanged, because `DIV` is in the allowed tag set; a recognized
block-level kind genuinely outside the allowed set, such as
`<section style="color:red">Hi</section>`, is replaced by a paragraph carrying
the same children and the same style declaration, yielding
`<p style="color:red">Hi</p>`. -/
theorem sanitize_div_passthrough :
    sanitizeChildren (MList.cons divHi MList.nil) = MList.cons divHi MList.nil ∧
    sanitizeChildren (MList.cons secHi MList.nil) = MList.cons pHi MList.nil :=
  ⟨rfl, rfl⟩

/-! ### Formats lemmas -/

/-- Generic shape of a scalar attribute under a fold that overwrites it
whenever the element defines it: the result is the value at the LAST defining
element of the chain — i.e. the first defining element of the reversed
chain — falling back to the accumulator. -/
theorem foldl_scalar_last (step : Formats → AncestorElem → Formats)
    (proj : Formats → Option String) (d : AncestorElem → Bool) (v : AncestorElem → String)
    (hstep : ∀ f e, proj (step f e) = if d e then some (v e) else proj f) :
    ∀ (chain : List AncestorElem) (f : Formats),
      proj (chain.foldl step f) =
        (chain.reverse.find? d).elim (proj f) (fun e => some (v e)) := by
  intro chain
  induction chain with
  | nil => intro f; rfl
  | cons e tl ih =>
    intro f
    rw [List.foldl_cons, ih (step f e), List.reverse_cons, List.find?_append]
    cases hfind : tl.reverse.find? d with
    | some a => rfl
    | none =>
      simp only [Option.none_orElse, Option.elim]
      rw [hstep f e]
      cases hde : d e <;> simp [List.find?, hde]

/-- A fold whose step leaves a projection unchanged leaves it unchanged. -/
theorem foldl_preserves (step : Formats → AncestorElem → Formats)
    (proj : Formats → Option String)
    (hstep : ∀ f e, proj (step f e) = proj f) :
    ∀ (chain : List AncestorElem) (f : Formats),
      proj (chain.foldl step f) = proj f := by
  intro chain
  induction chain with
  | nil => intro f; rfl
  | cons e tl ih =>
    intro f
    rw [List.foldl_cons, ih, hstep]

theorem formatsStep_link (f : Formats) (e : AncestorElem) :
    (formatsStep f e).link =
      if e.tag.toLower == "a" then some e.href else f.link := by
  dsimp only [formatsStep]
  simp only [apply_ite (fun g : Formats => g.link), ite_self]

theorem formatsStep_block (f : Formats) (e : AncestorElem) :
    (formatsStep f e).block =
      if BLOCK_ELEMENTS.contains e.tag then some e.tag.toLower else f.block := by
  dsimp only [formatsStep]
  simp only [apply_ite (fun g : Formats => g.block), ite_self]

theorem formatsStep_fontSize (f : Formats) (e : AncestorElem) :
    (formatsStep f e).fontSize =
      if e.fontSize != "" then some e.fontSize else f.fontSize := by
  dsimp only [formatsStep]
  simp only [apply_ite (fun g : Formats => g.fontSize), ite_self]

theorem formatsStep_fontFamily (f : Formats) (e : AncestorElem) :
    (formatsStep f e).fontFamily =
      if e.fontFamily != "" then some e.fontFamily else f.fontFamily := by
  dsimp only [formatsStep]
  simp only [apply_ite (fun g : Formats => g.fontFamily), ite_self]

theorem formatsStep_color (f : Formats) (e : AncestorElem) :
    (formatsStep f e).color =
      if e.color != "" then some e.color else f.color := by
  dsimp only [formatsStep]
  simp only [apply_ite (fun g : Formats => g.color), ite_self]

theorem formatsStep_backgroundColor (f : Formats) (e : AncestorElem) :
    (formatsStep f e).backgroundColor =
      if e.backgroundColor != "" then some e.backgroundColor
      else f.backgroundColor := by
  dsimp only [formatsStep]
  simp only [apply_ite (fun g : Formats => g.backgroundColor), ite_self]

theorem listStep_preserves_scalars (f : Formats) (e : AncestorElem) :
    (listStep f e).link = f.link ∧ (listStep f e).block = f.block ∧
    (listStep f e).fontSize = f.fontSize ∧ (listStep f e).fontFamily = f.fontFamily ∧
    (listStep f e).color = f.color ∧
    (listStep f e).backgroundColor = f.backgroundColor := by
  simp only [listStep]
  split <;> split <;> exact ⟨rfl, rfl, rfl, rfl, rfl, rfl⟩

/-! ### Claim C7 -/

/-- Claim C7 (confirmed): for every ancestor chain (listed innermost first, as
`getActiveFormats` walks it), each scalar attribute — link target, block kind,
font-size, font-family, text color, background color — is reported with the
value defined by the OUTERMOST defining ancestor: the value is overwritten at
each defining ancestor while ascending, so the first defining element of the
reversed chain (`chain.reverse.find?`) is what survives. -/
theorem active_formats_outermost_wins (chain : List AncestorElem) :
    (getActiveFormats chain).link =
      ((chain.reverse.find? (fun e => e.tag.toLower == "a")).map (fun e => e.href)) ∧
    (getActiveFormats chain).block =
      ((chain.reverse.find? (fun e => BLOCK_ELEMENTS.contains e.tag)).map
        (fun e => e.tag.toLower)) ∧
    (getActiveFormats chain).fontSize =
      ((chain.reverse.find? (fun e => e.fontSize != "")).map (fun e => e.fontSize)) ∧
    (getActiveFormats chain).fontFamily =
      ((chain.reverse.find? (fun e => e.fontFamily != "")).map (fun e => e.fontFamily)) ∧
    (getActiveFormats chain).color =
      ((chain.reverse.find? (fun e => e.color != "")).map (fun e => e.color)) ∧
    (getActiveFormats chain).backgroundColor =
      ((chain.reverse.find? (fun e => e.backgroundColor != "")).map
        (fun e => e.backgroundColor)) := by
  have helim : ∀ (o : Option AncestorElem) (v : AncestorElem → String),
      o.elim (none : Option String) (fun e => some (v e)) = o.map v := by
    intro o v
    cases o <;> rfl
  unfold getActiveFormats
  refine ⟨?_, ?_, ?_, ?_, ?_, ?_⟩
  · rw [foldl_preserves listStep (fun f => f.link)
      (fun f e => (listStep_preserves_scalars f e).1)]
    rw [foldl_scalar_last formatsStep (fun f => f.link) _ (fun e => e.href)
      formatsStep_link]
    exact helim _ _
  · rw [foldl_preserves listStep (fun f => f.block)
      (fun f e => (listStep_preserves_scalars f e).2.1)]
    rw [foldl_scalar_last formatsStep (fun f => f.block) _ (fun e => e.tag.toLower)
      formatsStep_block]
    exact helim _ _
  · rw [foldl_preserves listStep (fun f => f.fontSize)
      (fun f e => (listStep_preserves_scalars f e).2.2.1)]
    rw [foldl_scalar_last formatsStep (fun f => f.fontSize) _ (fun e => e.fontSize)
      formatsStep_fontSize]
    exact helim _ _
  · rw [foldl_preserves listStep (fun f => f.fontFamily)
      (fun f e => (listStep_preserves_scalars f e).2.2.2.1)]
    rw [foldl_scalar_last formatsStep (fun f => f.fontFamily) _ (fun e => e.fontFamily)
      formatsStep_fontFamily]
    exact helim _ _
  · rw [foldl_preserves listStep (fun f => f.color)
      (fun f e => (listStep_preserves_scalars f e).2.2.2.2.1)]
    rw [foldl_scalar_last formatsStep (fun f => f.color) _ (fun e => e.color)
      formatsStep_color]
    exact helim _ _
  · rw [foldl_preserves listStep (fun f => f.backgroundColor)
      (fun f e => (listStep_preserves_scalars f e).2.2.2.2.2)]
    rw [foldl_scalar_last formatsStep (fun f => f.backgroundColor) _
      (fun e => e.backgroundColor) formatsStep_backgroundColor]
    exact helim _ _

/-! ### Claim C8 -/

/-- Counterexample for C8 as stated: a drag that began on the TOP-LEFT handle
with horizontal delta +100 from start width 400 (aspect ratio 2).  The claim
prescribes width `clamp(400 - 100) = 300`, height `150`; the editor's
installed handler `handleResizeMouseMove` ignores the corner and yields
`(500, 250)`. -/
theorem resize_left_corner_cex :
    handleResizeMouseMove 400 2 100 = (500, 250) ∧
    ((500 : ℚ), (250 : ℚ)) ≠
      (max 50 (min 800 ((400 : ℚ) - 100)), max 50 (min 800 ((400 : ℚ) - 100)) / 2) := by
  constructor
  · show (max 50 (min 800 (400 + 100 : ℚ)), max 50 (min 800 (400 + 100 : ℚ)) / 2) = _
    norm_num
  · norm_num

/-- Claim C8 (amended): in `RichTextEditor` — the handler the editor installs —
every pointer-move during an active resize drag sets the width to the
gesture-start width PLUS the horizontal delta regardless of which corner the
drag began on, clamped to [50, 800], with the height re-derived as the clamped
width divided by the gesture-start aspect ratio.  The unused
`ImageResizeWrapper` component implements the claimed corner-aware rule:
delta added for right-edge corners, subtracted for left-edge corners, same
clamp, height re-derived.  In particular, start width 400, aspect ratio 2.0,
bottom-right drag with delta +100 yields width 500 and height 250 under
both. -/
theorem resize_step_behavior (startWidth startHeight aspect deltaX : ℚ) :
    handleResizeMouseMove startWidth aspect deltaX =
      (max 50 (min 800 (startWidth + deltaX)),
       max 50 (min 800 (startWidth + deltaX)) / aspect) ∧
    handleMouseMoveIRW "bottom-right" startWidth startHeight aspect deltaX =
      (max 50 (min 800 (startWidth + deltaX)),
       max 50 (min 800 (startWidth + deltaX)) / aspect) ∧
    handleMouseMoveIRW "top-right" startWidth startHeight aspect deltaX =
      (max 50 (min 800 (startWidth + deltaX)),
       max 50 (min 800 (startWidth + deltaX)) / aspect) ∧
    handleMouseMoveIRW "bottom-left" startWidth startHeight aspect deltaX =
      (max 50 (min 800 (startWidth - deltaX)),
       max 50 (min 800 (startWidth - deltaX)) / aspect) ∧
    handleMouseMoveIRW "top-left" startWidth startHeight aspect deltaX =
      (max 50 (min 800 (startWidth - deltaX)),
       max 50 (min 800 (startWidth - deltaX)) / aspect) ∧
    handleResizeMouseMove 400 2 100 = ((500 : ℚ), (250 : ℚ)) := by
  have hclamp : ∀ x : ℚ, min 800 (max 50 x) = max 50 (min 800 x) := by
    intro x
    rw [max_min_distrib_left]
    norm_num
  have hbr : strIncludes "bottom-right" "right" = true := by decide
  have htr : strIncludes "top-right" "right" = true := by decide
  have hbl : strIncludes "bottom-left" "right" = false := by decide
  have hbl2 : strIncludes "bottom-left" "left" = true := by decide
  have htl : strIncludes "top-left" "right" = false := by decide
  have htl2 : strIncludes "top-left" "left" = true := by decide
  refine ⟨rfl, ?_, ?_, ?_, ?_, ?_⟩
  · dsimp only [handleMouseMoveIRW]
    rw [hbr, if_pos rfl, hclamp]
  · dsimp only [handleMouseMoveIRW]
    rw [htr, if_pos rfl, hclamp]
  · dsimp only [handleMouseMoveIRW]
    rw [hbl, hbl2, if_neg (by simp), if_pos rfl, hclamp]
  · dsimp only [handleMouseMoveIRW]
    rw [htl, htl2, if_neg (by simp), if_pos rfl, hclamp]
  · show (max 50 (min 800 (400 + 100 : ℚ)), max 50 (min 800 (400 + 100 : ℚ)) / 2) = _
    norm_num

/-- Claim C4 (code bug): the span-merge invariant does NOT survive every
styling command.  Applying `setTextColor` to the substring `ell` inside
`<span style="color:red">Hello</span>` inserts the new styled span INSIDE the
existing span; `cleanupNestedSpans` only inspects descendants of the new span
(`element.querySelectorAll('span')`), never the new span's own parent, so the
document ends with a styled span as the direct child of another styled span —
the invariant held before the command and is false after it. -/

theorem span_merge_invariant_violation :
    noNestedSpansN spanDoc = true ∧
    noNestedSpansN ((setTextColor "blue" 100 spanSel (initState spanDoc)).content)
      = false := by
  decide

theorem saveHistory_content {α : Type} (now : Nat) (s : HistoryState α) :
    (saveHistory now s).content = s.content := by
  unfold saveHistory
  split
  · rfl
  · split <;> rfl

/-- Counterexample for C9 as stated: `handlePaste` with no active range is
NOT a history-silent no-op — `saveHistory()` runs before the range check, so
a history entry is pushed (and the redo stack cleared) even though nothing is
pasted. -/
theorem handlePaste_no_range_pushes_history :
    (handlePaste none none 100 none (initState spanDoc)).undoStack.length = 1 ∧
    (initState spanDoc).undoStack.length = 0 := by
  decide

/-- Claim C9 (amended): with no active range, every Command Engine operation
except `handlePaste` is a complete no-op — the document, both history stacks
and all history bookkeeping are unchanged, no snapshot is requested.
`handlePaste` leaves the document content unchanged but calls `saveHistory()`
BEFORE checking for a range, so it may push a history entry and clear the
redo stack (see the counterexample). -/
theorem missing_range_noop (tagName blockTag listType url src alt v : String)
    (style : List (String × String)) (now : Nat) (sel : EditorSelection)
    (hsel : sel.range = none) (st : HistoryState MNode)
    (pHtml : Option MList) (pText : Option String) :
    toggleInlineStyle tagName now sel st = st ∧
    setBlockType blockTag now sel st = st ∧
    toggleList listType now sel st = st ∧
    insertLink url now sel st = st ∧
    removeLink now sel st = st ∧
    wrapSelectionWithSpan style now sel st = st ∧
    setFontSize v now sel st = st ∧
    setFontFamily v now sel st = st ∧
    setTextColor v now sel st = st ∧
    setBackgroundColor v now sel st = st ∧
    insertImage src alt now sel st = st ∧
    (handlePaste pHtml pText now none st).content = st.content := by
  refine ⟨?_, ?_, ?_, ?_, ?_, ?_, ?_, ?_, ?_, ?_, ?_, ?_⟩
  · simp only [toggleInlineStyle, hsel]
  · simp only [setBlockType, hsel]
  · simp only [toggleList, hsel]
  · simp only [insertLink, hsel]
  · simp only [removeLink, hsel]
  · simp only [wrapSelectionWithSpan, hsel]
  · simp only [setFontSize, wrapSelectionWithSpan, hsel]
  · simp only [setFontFamily, wrapSelectionWithSpan, hsel]
  · simp only [setTextColor, wrapSelectionWithSpan, hsel]
  · simp only [setBackgroundColor, wrapSelectionWithSpan, hsel]
  · simp only [insertImage, hsel]
  · simp only [handlePaste]
    exact saveHistory_content now st

/-- Witness for C9: the amended statement evaluated at a concrete rangeless
selection and document. -/
theorem missing_range_noop_witness :
    noRangeSel.range = none ∧
    (toggleInlineStyle "B" 100 noRangeSel (initState spanDoc) = initState spanDoc ∧
     setBlockType "H1" 100 noRangeSel (initState spanDoc) = initState spanDoc ∧
     toggleList "UL" 100 noRangeSel (initState spanDoc) = initState spanDoc ∧
     insertLink "https://x" 100 noRangeSel (initState spanDoc) = initState spanDoc ∧
     removeLink 100 noRangeSel (initState spanDoc) = initState spanDoc ∧
     wrapSelectionWithSpan [("color", "red")] 100 noRangeSel (initState spanDoc)
       = initState spanDoc ∧
     setFontSize "12px" 100 noRangeSel (initState spanDoc) = initState spanDoc ∧
     setFontFamily "12px" 100 noRangeSel (initState spanDoc) = initState spanDoc ∧
     setTextColor "12px" 100 noRangeSel (initState spanDoc) = initState spanDoc ∧
     setBackgroundColor "12px" 100 noRangeSel (initState spanDoc) = initState spanDoc ∧
     insertImage "i.png" "alt" 100 noRangeSel (initState spanDoc) = initState spanDoc ∧
     (handlePaste none none 100 none (initState spanDoc)).content
       = (initState spanDoc).content) :=
  ⟨rfl, missing_range_noop "B" "H1" "UL" "https://x" "i.png" "alt" "12px"
    [("color", "red")] 100 noRangeSel rfl (initState spanDoc) none none⟩

/-- Claim C10 (confirmed): `toggleInlineStyle` and `wrapSelectionWithSpan`
(hence `setFontSize`, `setFontFamily`, `setTextColor`,
`setBackgroundColor`) are complete no-ops on a non-null but collapsed
selection: the document is unchanged and no history snapshot is taken — a
stricter precondition than the non-null-range requirement alone. -/
theorem collapsed_selection_noop (tagName v : String)
    (style : List (String × String)) (now : Nat) (sel : EditorSelection)
    (r : MRange) (hr : sel.range = some r) (hc : sel.isCollapsed = true)
    (st : HistoryState MNode) :
    toggleInlineStyle tagName now sel st = st ∧
    wrapSelectionWithSpan style now sel st = st ∧
    setFontSize v now sel st = st ∧
    setFontFamily v now sel st = st ∧
    setTextColor v now sel st = st ∧
    setBackgroundColor v now sel st = st := by
  refine ⟨?_, ?_, ?_, ?_, ?_, ?_⟩ <;>
    simp only [toggleInlineStyle, wrapSelectionWithSpan, setFontSize,
      setFontFamily, setTextColor, setBackgroundColor, hr, hc, if_true]

/-- Witness for C10: the statement evaluated at a concrete caret selection
and document. -/
theorem collapsed_selection_noop_witness :
    caretSel.range = some { path := [0, 0, 0], startOffset := 2, endOffset := 2 } ∧
    caretSel.isCollapsed = true ∧
    (toggleInlineStyle "B" 100 caretSel (initState spanDoc) = initState spanDoc ∧
     wrapSelectionWithSpan [("color", "red")] 100 caretSel (initState spanDoc)
       = initState spanDoc ∧
     setFontSize "12px" 100 caretSel (initState spanDoc) = initState spanDoc ∧
     setFontFamily "12px" 100 caretSel (initState spanDoc) = initState spanDoc ∧
     setTextColor "12px" 100 caretSel (initState spanDoc) = initState spanDoc ∧
     setBackgroundColor "12px" 100 caretSel (initState spanDoc) = initState spanDoc) :=
  ⟨rfl, rfl, collapsed_selection_noop "B" "12px" [("color", "red")] 100 caretSel
    { path := [0, 0, 0], startOffset := 2, endOffset := 2 } rfl rfl
    (initState spanDoc)⟩
